import Mathlib

/-
Verification of the synthetic query generation pipeline
(`generate_synthetic_queries.py`): the response validator
(`postprocess_synthetic_querygen_response`), the prompt builder, the
resume/pending-set computation, the batched dispatch loop with its
incremental checkpoint log, and the final consolidated write in `main`.

Python strings are modelled as Lean `String` (a list of characters),
Python dicts keyed by card name as insertion-ordered association lists,
`json.loads` as a fuel-bounded recursive-descent JSON parser, and the
`main` coroutine as a pure function from (corpus, loaded store, API-key
presence, LLM service behaviour) to a run outcome that records the
ordered trace of observable events: one request event per card for which
a chat completion is issued, and one append event per record written to
the incremental log `synthetic_queries_temp.jsonl`.  A transport-level
service failure is an `Except.error` from the service function; since
the batch loop awaits `asyncio.gather` over the batch's futures without
`return_exceptions=True`, a single error propagates and terminates the
run, which the model reflects by stopping the trace after that batch's
request events.
-/

/-! ## Python string primitives -/

/-- Python `str.strip(chars)` on a character list: remove characters
satisfying `bad` from both ends. -/
def pyStripL (bad : Char → Bool) (cs : List Char) : List Char :=
  ((cs.dropWhile bad).reverse.dropWhile bad).reverse

/-- Python `str.strip(chars)` on strings. -/
def pyStripSet (bad : Char → Bool) (s : String) : String :=
  String.mk (pyStripL bad s.data)

/-- Characters removed by Python's no-argument `str.strip()` (ASCII
whitespace as recognised by `str.isspace`). -/
def isPySpace (c : Char) : Bool :=
  c = ' ' || c = '\t' || c = '\n' || c = '\x0d' || c = '\x0b' || c = '\x0c'

/-- Python `str.strip()`. -/
def pyStripWs (s : String) : String := pyStripSet isPySpace s

/-! ## JSON values and `json.loads`

`json.loads` builds Python dicts for objects, so duplicate keys collapse
with the later value replacing the earlier one in place, and lists for
arrays.  Numbers keep their source lexeme: no claim distinguishes
numeric values, only the type of a JSON node. -/

inductive Json where
  | null : Json
  | bool (b : Bool) : Json
  | num (lexeme : String) : Json
  | str (s : String) : Json
  | arr (items : List Json) : Json
  | obj (fields : List (String × Json)) : Json

/-- Last-wins insertion for object construction, keeping the original
position of a repeated key, as Python dict assignment does. -/
def jsonObjInsert (fields : List (String × Json)) (k : String) (v : Json) :
    List (String × Json) :=
  match fields with
  | [] => [(k, v)]
  | (k', v') :: rest =>
      if k' = k then (k', v) :: rest else (k', v') :: jsonObjInsert rest k v

/-- Field lookup on a parsed object (keys are unique after
`jsonObjInsert`). -/
def objGet (fields : List (String × Json)) (k : String) : Option Json :=
  match fields with
  | [] => none
  | (k', v) :: rest => if k' = k then some v else objGet rest k

/-- JSON whitespace accepted between tokens by the Python parser. -/
def isJsonWs (c : Char) : Bool :=
  c = ' ' || c = '\t' || c = '\n' || c = '\x0d'

def skipWs (cs : List Char) : List Char := cs.dropWhile isJsonWs

def hexVal (c : Char) : Option Nat :=
  if '0' ≤ c ∧ c ≤ '9' then some (c.toNat - '0'.toNat)
  else if 'a' ≤ c ∧ c ≤ 'f' then some (c.toNat - 'a'.toNat + 10)
  else if 'A' ≤ c ∧ c ≤ 'F' then some (c.toNat - 'A'.toNat + 10)
  else none

/-- Decode the body of a JSON string literal after the opening quote,
returning the decoded characters and the input after the closing quote.
Standard escapes are decoded; `\uXXXX` is decoded through `Char.ofNat`
(astral-plane surrogate pairing is not needed by any input considered
here).  Unescaped control characters are rejected as in Python's strict
default mode. -/
def parseStrBody : Nat → List Char → Option (List Char × List Char)
  | 0, _ => none
  | _, [] => none
  | fuelP + 1, c :: rest =>
    if c = '"' then some ([], rest)
    else if c = '\\' then
      match rest with
      | [] => none
      | e :: rest' =>
        let decoded : Option (Char × List Char) :=
          if e = '"' then some ('"', rest')
          else if e = '\\' then some ('\\', rest')
          else if e = '/' then some ('/', rest')
          else if e = 'b' then some ('\x08', rest')
          else if e = 'f' then some ('\x0c', rest')
          else if e = 'n' then some ('\n', rest')
          else if e = 'r' then some ('\x0d', rest')
          else if e = 't' then some ('\t', rest')
          else if e = 'u' then
            match rest' with
            | h1 :: h2 :: h3 :: h4 :: rest'' =>
              match hexVal h1, hexVal h2, hexVal h3, hexVal h4 with
              | some a, some b, some c3, some d =>
                  some (Char.ofNat (((a * 16 + b) * 16 + c3) * 16 + d), rest'')
              | _, _, _, _ => none
            | _ => none
          else none
        match decoded with
        | none => none
        | some (ch, rem) =>
          match parseStrBody fuelP rem with
          | none => none
          | some (body, rem') => some (ch :: body, rem')
    else if c.toNat < 32 then none
    else
      match parseStrBody fuelP rest with
      | none => none
      | some (body, rem) => some (c :: body, rem)

def isDigit (c : Char) : Bool := '0' ≤ c ∧ c ≤ '9'

/-- Lex a JSON number (`-? int frac? exp?`) returning its lexeme.  The
Python parser additionally accepts the non-standard `NaN`, `Infinity`
and `-Infinity`, which are handled by the caller. -/
def parseNumLex (cs : List Char) : Option (String × List Char) :=
  let (sign, cs1) :=
    match cs with
    | '-' :: rest => (['-'], rest)
    | _ => (([] : List Char), cs)
  match cs1 with
  | [] => none
  | d :: _ =>
    if ¬ isDigit d then none
    else
      let intPart := cs1.takeWhile isDigit
      let cs2 := cs1.dropWhile isDigit
      -- leading zeros: JSON allows "0" but not "01"
      if intPart.length > 1 ∧ intPart.headD '0' = '0' then none
      else
        let (fracPart, cs3) :=
          match cs2 with
          | '.' :: rest =>
            let ds := rest.takeWhile isDigit
            if ds = [] then ([], cs2) else ('.' :: ds, rest.dropWhile isDigit)
          | _ => (([] : List Char), cs2)
        -- a bare "1." is invalid JSON: reject by noticing the undigested dot
        if fracPart.isEmpty && (match cs2 with | '.' :: _ => true | _ => false) then none
        else
          let (expPart, cs4) :=
            match cs3 with
            | e :: rest =>
              if e = 'e' ∨ e = 'E' then
                let (es, rest1) :=
                  match rest with
                  | s :: r => if s = '+' ∨ s = '-' then ([e, s], r) else ([e], rest)
                  | [] => ([e], rest)
                let ds := rest1.takeWhile isDigit
                if ds = [] then (([] : List Char), cs3)
                else (es ++ ds, rest1.dropWhile isDigit)
              else ([], cs3)
            | [] => (([] : List Char), cs3)
          -- an 'e' with no digits is invalid JSON
          if expPart.isEmpty && (match cs3 with
              | e :: _ => e == 'e' || e == 'E'
              | [] => false) then none
          else some (String.mk (sign ++ intPart ++ fracPart ++ expPart), cs4)

/-- Check that `pre` is an initial segment of `cs` and return the rest. -/
def chopLit : List Char → List Char → Option (List Char)
  | [], cs => some cs
  | _, [] => none
  | p :: ps, c :: cs => if p = c then chopLit ps cs else none

mutual

/-- One JSON value, fuel-bounded recursive descent.  Fuel strictly
decreases on every recursive call; `jsonLoads` supplies enough fuel for
any input of its length, so exhaustion never occurs on reachable
inputs. -/
def parseVal : Nat → List Char → Option (Json × List Char)
  | 0, _ => none
  | fuelP + 1, cs =>
    match skipWs cs with
    | [] => none
    | c :: rest =>
      if c = '\x7b' then parseObjItems fuelP rest true []
      else if c = '[' then parseArrItems fuelP rest true []
      else if c = '"' then
        match parseStrBody fuelP rest with
        | none => none
        | some (body, rem) => some (Json.str (String.mk body), rem)
      else if c = 't' then
        (chopLit ['r', 'u', 'e'] rest).map (fun r => (Json.bool true, r))
      else if c = 'f' then
        (chopLit ['a', 'l', 's', 'e'] rest).map (fun r => (Json.bool false, r))
      else if c = 'n' then
        (chopLit ['u', 'l', 'l'] rest).map (fun r => (Json.null, r))
      else if c = 'N' then
        (chopLit ['a', 'N'] rest).map (fun r => (Json.num (String.mk ['N', 'a', 'N']), r))
      else if c = 'I' then
        (chopLit ['n', 'f', 'i', 'n', 'i', 't', 'y'] rest).map
          (fun r => (Json.num (String.mk "Infinity".data), r))
      else if (c == '-') && (match rest with | 'I' :: _ => true | _ => false) then
        (chopLit ['I', 'n', 'f', 'i', 'n', 'i', 't', 'y'] rest).map
          (fun r => (Json.num (String.mk "-Infinity".data), r))
      else
        (parseNumLex (c :: rest)).map (fun (lx, r) => (Json.num lx, r))

/-- Array items after `[`; `first` is true before the first item. -/
def parseArrItems : Nat → List Char → Bool → List Json → Option (Json × List Char)
  | 0, _, _, _ => none
  | fuelP + 1, cs, first, acc =>
    match skipWs cs with
    | [] => none
    | c :: rest =>
      if c = ']' then
        if first then some (Json.arr [], rest)
        else some (Json.arr acc.reverse, rest)
      else
        let cs1 :=
          if first then skipWs cs
          else if c = ',' then rest
          else []
        if ¬ first ∧ c ≠ ',' then none
        else
          match parseVal fuelP cs1 with
          | none => none
          | some (v, rem) => parseArrItems fuelP rem false (v :: acc)

/-- Object members after the opening brace. -/
def parseObjItems : Nat → List Char → Bool → List (String × Json) →
    Option (Json × List Char)
  | 0, _, _, _ => none
  | fuelP + 1, cs, first, acc =>
    match skipWs cs with
    | [] => none
    | c :: rest =>
      if c = '\x7d' then
        if first then some (Json.obj [], rest) else some (Json.obj acc, rest)
      else
        let cs1 :=
          if first then skipWs cs
          else if c = ',' then skipWs rest
          else []
        if ¬ first ∧ c ≠ ',' then none
        else
          match cs1 with
          | '"' :: kimg =>
            match parseStrBody fuelP kimg with
            | none => none
            | some (kbody, rem) =>
              match skipWs rem with
              | ':' :: rem1 =>
                match parseVal fuelP rem1 with
                | none => none
                | some (v, rem2) =>
                    parseObjItems fuelP rem2 false
                      (jsonObjInsert acc (String.mk kbody) v)
              | _ => none
          | _ => none

end

/-- `json.loads`: parse one JSON document, requiring only whitespace
after it.  The fuel `4 * (length + 4)` dominates the parser's call
depth, in which every recursive call either consumes input or moves at
most three steps between mutual entry points before consuming. -/
def jsonLoads (s : String) : Option Json :=
  match parseVal (4 * (s.data.length + 4)) s.data with
  | none => none
  | some (v, rest) => if skipWs rest = [] then some v else none

/-! ## ResponseValidator: `postprocess_synthetic_querygen_response` -/

/-- Membership test for the character set of a Python `str.strip` argument. -/
def charIn (cs : List Char) (c : Char) : Bool := cs.contains c

/-- The defensive cleanup chain applied to the raw model output:
`model_output.strip().strip("\x60\x60\x60").strip().strip("json").strip()`. -/
def cleanedOutput (s : String) : String :=
  pyStripWs (pyStripSet (charIn ['j', 's', 'o', 'n'])
    (pyStripWs (pyStripSet (charIn ['\x60']) (pyStripWs s))))

/-- `Json.str` projection. -/
def asStr : Json → Option String
  | Json.str s => some s
  | _ => none

/-- The fixed response schema checked by `jsonschema.validate`: the value
must be an object, the field `hypothetical_queries` must be present, and
its value must be an array whose items are all strings.  Additional
fields are permitted and the array length is unconstrained. -/
def schemaOk (j : Json) : Bool :=
  match j with
  | Json.obj fields =>
    match objGet fields ("hypothetical_queries") with
    | some (Json.arr items) => items.all (fun v => (asStr v).isSome)
    | some _ => false
    | none => false
  | _ => false

/-- Project a list of JSON nodes to their strings, failing on any
non-string item. -/
def strList : List Json → Option (List String)
  | [] => some []
  | j :: rest =>
    match asStr j, strList rest with
    | some s, some ss => some (s :: ss)
    | _, _ => none

/-- Extract the `hypothetical_queries` array as a list of strings. -/
def extractQueries (j : Json) : Option (List String) :=
  match j with
  | Json.obj fields =>
    match objGet fields ("hypothetical_queries") with
    | some (Json.arr items) => strList items
    | _ => none
  | _ => none

/-- `postprocess_synthetic_querygen_response`: clean up the raw output,
parse it, check the schema, and return the query array.  Both failure
branches of the Python function (`json.JSONDecodeError` and
`jsonschema.ValidationError`) return `None`, modelled as `none`. -/
def postprocess_synthetic_querygen_response (model_output : String) :
    Option (List String) :=
  match jsonLoads (cleanedOutput model_output) with
  | none => none
  | some data => if schemaOk data then extractQueries data else none

/-! ## PromptBuilder: `prepare_synthetic_querygen_prompt` -/

/-- The fixed instruction block of the prompt (the triple-quoted literal
in the source, which `.strip()` leaves unchanged). -/
def promptInstructions : String :=
  "You are an expert AI assisting in creating a high-quality, diverse synthetic dataset to train Information Retrieval systems for Magic: The Gathering cards.\n"
  ++ "Your task is to analyse the card description below and generate a set of rich, high-quality potential queries for which the given card would rank very highly.\n"
  ++ "\n"
  ++ "The output queries should be diverse, covering various aspects of the card, including its mechanics, roles, strategies, and synergies. The queries should be in natural language and should not be too similar to each other.\n"
  ++ "They should feature a variety of keywords and phrases that a user might use when searching for cards like this one, including specific jargons or slang used in the Magic: The Gathering community. Avoid naming the card directly or repeating its exact text.\n"
  ++ "You should submit about 5-10 brief queries. Include at least two queries that are short collections of keywords or phrases, and at least two queries that are full sentences.\n"
  ++ "Your output should be a JSON object with the same schema as the following example:\n"
  ++ "<schema>\n"
  ++ "\x7b\n"
  ++ "    \"hypothetical_queries\": [\"<query1>\", \"<query2>\", \"<query3>\", \"<query4>\", \"<query5>\", \"<query6>\"]\n"
  ++ "\x7d\n"
  ++ "</schema>"

/-- `prepare_synthetic_querygen_prompt`: instruction block followed by
the formatted card in a delimited input section, stripped. -/
def prepare_synthetic_querygen_prompt (formatted_card : String) : String :=
  pyStripWs (pyStripWs promptInstructions
    ++ "\n<input>\n" ++ formatted_card ++ "\n</input>\n")

/-! ## Python dict model

`queries_data` and the loaded consolidated store are Python dicts from
card name to query list: insertion-ordered association lists with unique
keys, where assignment to an existing key replaces its value in place
and assignment to a fresh key appends it. -/

abbrev QueryStore := List (String × List String)

def dictGet (d : QueryStore) (k : String) : Option (List String) :=
  match d with
  | [] => none
  | (k', v) :: rest => if k' = k then some v else dictGet rest k

/-- `k in d` for a Python dict. -/
def dictHasKey (d : QueryStore) (k : String) : Bool :=
  (dictGet d k).isSome

/-- `d[k] = v` for a Python dict. -/
def dictSet (d : QueryStore) (k : String) (v : List String) : QueryStore :=
  match d with
  | [] => [(k, v)]
  | (k', v') :: rest =>
      if k' = k then (k', v) :: rest else (k', v') :: dictSet rest k v

def dictKeys (d : QueryStore) : List String := d.map Prod.fst

/-! ## CheckpointStore: `load_existing` and the run model -/

/-- Loading `synthetic_queries.json` at the top of `main`: the parsed
mapping if the file exists, the empty dict on `FileNotFoundError`.  The
incremental log `synthetic_queries_temp.jsonl` is not consulted. -/
def load_existing (consolidatedFile : Option QueryStore) : QueryStore :=
  match consolidatedFile with
  | none => []
  | some d => d

/-- The corpus as `main` sees it: the ordered card names and the
formatted text of each card (`dataset.card_names`,
`dataset.formatted_cards`). -/
structure Corpus where
  card_names : List String
  formatted_cards : String → String

/-- One pipeline run's observable events, in program order: a request
event when a chat completion is dispatched for a card, an append event
when a validated record is written to `synthetic_queries_temp.jsonl`. -/
inductive Ev where
  | req (card : String) : Ev
  | app (card : String) (queries : List String) : Ev
deriving DecidableEq

/-- Outcome of one invocation of `main`: whether it returned without an
exception, the ordered event trace, and the mapping written to
`synthetic_queries.json` at the end (`none` when the final write was
never reached, or when the early "all queries already generated" return
leaves the file untouched). -/
structure RunResult where
  ok : Bool
  events : List Ev
  finalWrite : Option QueryStore
deriving DecidableEq

/-- The LLM service: from the prompt to either a transport-level failure
(timeout, raised error, non-success status — an exception from the
`openai` client) or the raw message content of the response. -/
abbrev Service := String → Except Unit String

def isErrE (r : Except Unit String) : Bool :=
  match r with
  | Except.error _ => true
  | Except.ok _ => false

def exVal (r : Except Unit String) : String :=
  match r with
  | Except.error _ => ""
  | Except.ok s => s

/-- `new_cards_to_query[i:i+32]` slicing loop: consecutive chunks of 32. -/
def chunks32 : List String → List (List String)
  | [] => []
  | c :: cs => ((c :: cs).take 32) :: chunks32 ((c :: cs).drop 32)
termination_by l => l.length
decreasing_by
  simp [List.length_drop]
  omega

/-- The validated output for one card of a batch, as computed inside the
batch loop: raw response content through the validator. -/
def decodedOf (oracle : Service) (promptOf : String → String) (c : String) :
    Option (List String) :=
  postprocess_synthetic_querygen_response (exVal (oracle (promptOf c)))

/-- The append events produced by one batch's zip loop, in order. -/
def appsOfBatch (oracle : Service) (promptOf : String → String)
    (b : List String) : List Ev :=
  b.filterMap (fun c => (decodedOf oracle promptOf c).map (fun qs => Ev.app c qs))

/-- One iteration of the batch's zip loop: skip a `None` output, store
a validated one. -/
def updCard (oracle : Service) (promptOf : String → String)
    (qd : QueryStore) (c : String) : QueryStore :=
  match decodedOf oracle promptOf c with
  | none => qd
  | some qs => dictSet qd c qs

/-- `queries_data` after one batch's zip loop. -/
def updBatch (oracle : Service) (promptOf : String → String)
    (b : List String) (qd : QueryStore) : QueryStore :=
  b.foldl (updCard oracle promptOf) qd

/-- The batch loop of `main`.  For each batch, one request future is
created per card and the batch is awaited with `asyncio.gather`; since
`gather` is not called with `return_exceptions=True`, a transport
failure of any request propagates out of the loop and terminates `main`
before the batch's responses are decoded: no append from that batch and
no final write occurs, though every request of the batch was issued.
Otherwise each response is validated independently; `None` outputs are
skipped and validated outputs are stored and appended to the
incremental log before the next batch is dispatched. -/
def runBatches (oracle : Service) (promptOf : String → String) :
    List (List String) → QueryStore → RunResult
  | [], qd => { ok := true, events := [], finalWrite := some qd }
  | b :: rest, qd =>
    let reqs := b.map Ev.req
    if (b.map (fun c => oracle (promptOf c))).any isErrE then
      { ok := false, events := reqs, finalWrite := none }
    else
      let r := runBatches oracle promptOf rest (updBatch oracle promptOf b qd)
      { ok := r.ok
        events := reqs ++ appsOfBatch oracle promptOf b ++ r.events
        finalWrite := r.finalWrite }

/-- The pending set of a run: corpus card names without an entry in the
loaded consolidated store, in corpus order
(`[card for card in dataset.card_names if card not in queries_data]`). -/
def pendingOf (corpus : Corpus) (store : QueryStore) : List String :=
  corpus.card_names.filter (fun c => ! dictHasKey store c)

/-- The prompt sent for a card: `prepare_synthetic_querygen_prompt`
applied to `dataset.formatted_cards[card_name]`. -/
def promptOfCard (corpus : Corpus) : String → String :=
  fun c => prepare_synthetic_querygen_prompt (corpus.formatted_cards c)

/-- One invocation of `main`, given the loaded corpus, the mapping read
by `load_existing`, whether `OPENROUTER_API_KEY` is set, and the
service behaviour.  If every card name already has an entry, `main`
returns before creating the client: no request, no write.  A missing
API key raises `ValueError` before any network activity.  Otherwise the
pending cards are processed in batches of 32. -/
def runMain (corpus : Corpus) (store : QueryStore) (apiKeySet : Bool)
    (oracle : Service) : RunResult :=
  if corpus.card_names.all (fun c => dictHasKey store c) then
    { ok := true, events := [], finalWrite := none }
  else if apiKeySet = false then
    { ok := false, events := [], finalWrite := none }
  else
    runBatches oracle (promptOfCard corpus)
      (chunks32 (pendingOf corpus store)) store

/-- The card of a request event, `none` for an append event. -/
def reqCard : Ev → Option String
  | Ev.req c => some c
  | Ev.app _ _ => none

/-- The record of an append event, `none` for a request event. -/
def appRec : Ev → Option (String × List String)
  | Ev.req _ => none
  | Ev.app c qs => some (c, qs)

/-- The card an event concerns. -/
def evCard : Ev → String
  | Ev.req c => c
  | Ev.app c _ => c

/-- The cards for which a chat completion request was issued, in
dispatch order. -/
def RunResult.requested (r : RunResult) : List String :=
  r.events.filterMap reqCard

/-- The records appended to `synthetic_queries_temp.jsonl` by the run's
events, in order. -/
def appsOf (events : List Ev) : List (String × List String) :=
  events.filterMap appRec

/-- Contents of the incremental log after the run (the file is opened
in append mode, so prior contents persist). -/
def tempLogAfter (tempLog0 : List (String × List String)) (events : List Ev) :
    List (String × List String) :=
  tempLog0 ++ appsOf events

/-! ## The final consolidated write, at file-operation granularity

`main` ends with `open("synthetic_queries.json", "w")` followed by one
`write`.  Mode `"w"` truncates the file at `open`; there is no
temporary file and no rename. -/

inductive FsOp where
  | openTrunc : FsOp
  | writeStr (s : String) : FsOp
deriving DecidableEq

/-- The file operations performed on `synthetic_queries.json` by the
final write, given the serialized mapping. -/
def commitFinalOps (content : String) : List FsOp :=
  [FsOp.openTrunc, FsOp.writeStr content]

/-- Effect of one operation on the file (`none` = file absent). -/
def applyFsOp (file : Option String) : FsOp → Option String
  | FsOp.openTrunc => some ""
  | FsOp.writeStr s => some ((file.getD "") ++ s)

/-- File contents after executing a prefix of the operations; an
interruption during the commit corresponds to a proper prefix. -/
def fileAfter (init : Option String) (ops : List FsOp) : Option String :=
  ops.foldl applyFsOp init

/-- Whether a JSON node is an array of strings (the shape the fixed
schema demands of the `hypothetical_queries` field). -/
def isStrArray : Json → Bool
  | Json.arr items => items.all (fun v => (asStr v).isSome)
  | _ => false

/-! ## Concrete fixtures for the testable scenarios -/

/-- A well-formed service response carrying two queries. -/
def okResponse : String := "\x7b\"hypothetical_queries\": [\"q1\", \"q2\"]\x7d"

/-- A well-formed service response whose query array is empty. -/
def emptyResponse : String := "\x7b\"hypothetical_queries\": []\x7d"

/-- A service that always answers with `okResponse`. -/
def okService : Service := fun _ => Except.ok okResponse

/-- A service that always answers with `emptyResponse`. -/
def emptyService : Service := fun _ => Except.ok emptyResponse

/-- A one-card corpus. -/
def corpusX : Corpus := { card_names := ["CardX"], formatted_cards := fun n => n }

/-- A two-card corpus. -/
def corpusAB : Corpus := { card_names := ["A", "B"], formatted_cards := fun n => n }

/-- A 32-card corpus: exactly one full batch. -/
def corpus32 : Corpus :=
  { card_names := (List.range 32).map (fun i => "c" ++ toString i)
    formatted_cards := fun n => n }

/-- A service with a transport-level failure for exactly one of the 32
cards of `corpus32` and a well-formed response for the other 31. -/
def oneFailService : Service := fun s =>
  if s = promptOfCard corpus32 ("c0") then Except.error () else Except.ok okResponse

/-! ## Basic lemmas about the dict model -/

theorem dictGet_set_self (d : QueryStore) (k : String) (v : List String) :
    dictGet (dictSet d k v) k = some v := by
  induction d with
  | nil => simp [dictSet, dictGet]
  | cons h t ih =>
    obtain ⟨k', v'⟩ := h
    by_cases hk : k' = k
    · simp [dictSet, hk, dictGet]
    · simp [dictSet, hk, dictGet, ih]

theorem dictGet_set_ne (d : QueryStore) (k k' : String) (v : List String)
    (h : k' ≠ k) : dictGet (dictSet d k v) k' = dictGet d k' := by
  have hne : k ≠ k' := Ne.symm h
  induction d with
  | nil => simp [dictSet, dictGet, hne]
  | cons hd t ih =>
    obtain ⟨k₀, v₀⟩ := hd
    by_cases hk : k₀ = k
    · subst hk
      have hne' : k₀ ≠ k' := hne
      simp [dictSet, dictGet, hne']
    · simp [dictSet, hk, dictGet, ih]

theorem dictKeys_set (d : QueryStore) (k : String) (v : List String) :
    dictKeys (dictSet d k v) = dictKeys d ∨
      dictKeys (dictSet d k v) = dictKeys d ++ [k] := by
  induction d with
  | nil => right; simp [dictSet, dictKeys]
  | cons hd t ih =>
    obtain ⟨k₀, v₀⟩ := hd
    by_cases hk : k₀ = k
    · left; simp [dictSet, hk, dictKeys]
    · have e1 : dictKeys (dictSet ((k₀, v₀) :: t) k v)
          = k₀ :: dictKeys (dictSet t k v) := by
        simp [dictSet, hk, dictKeys]
      rcases ih with h | h
      · left
        rw [e1, h]
        simp [dictKeys]
      · right
        rw [e1, h]
        simp [dictKeys]

theorem mem_dictKeys_set (d : QueryStore) (k k' : String) (v : List String)
    (h : k' ∈ dictKeys (dictSet d k v)) : k' ∈ dictKeys d ∨ k' = k := by
  rcases dictKeys_set d k v with he | he <;> rw [he] at h
  · exact Or.inl h
  · rcases List.mem_append.1 h with h' | h'
    · exact Or.inl h'
    · simp at h'
      exact Or.inr h'

theorem dictHasKey_iff_mem (d : QueryStore) (k : String) :
    dictHasKey d k = true ↔ k ∈ dictKeys d := by
  induction d with
  | nil => simp [dictHasKey, dictGet, dictKeys]
  | cons hd t ih =>
    obtain ⟨k₀, v₀⟩ := hd
    by_cases hk : k₀ = k
    · simp [dictHasKey, dictGet, hk, dictKeys]
    · have hk' : ¬ k = k₀ := fun he => hk he.symm
      simpa [dictHasKey, dictGet, hk, hk', dictKeys] using ih

/-! ## Lemmas about the batch partition -/

theorem chunks32_join (l : List String) : (chunks32 l).flatten = l := by
  induction l using chunks32.induct with
  | case1 => simp [chunks32]
  | case2 c cs ih =>
    rw [chunks32]
    simp only [List.flatten_cons, ih, List.take_append_drop]

theorem mem_of_mem_chunks32 (l : List String) (b : List String) (c : String)
    (hb : b ∈ chunks32 l) (hc : c ∈ b) : c ∈ l := by
  have hj := chunks32_join l
  rw [← hj]
  exact List.mem_flatten.2 ⟨b, hb, hc⟩

/-! ## Lemmas about the batch loop -/

theorem filterMap_reqCard_reqs (b : List String) :
    (b.map Ev.req).filterMap reqCard = b := by
  induction b with
  | nil => simp
  | cons c cs ih => simp [reqCard, ih]

theorem filterMap_reqCard_apps (oracle : Service) (promptOf : String → String)
    (b : List String) :
    (appsOfBatch oracle promptOf b).filterMap reqCard = [] := by
  induction b with
  | nil => simp [appsOfBatch]
  | cons c cs ih =>
    cases hd : decodedOf oracle promptOf c with
    | none => simpa [appsOfBatch, hd] using ih
    | some qs => simpa [appsOfBatch, hd, reqCard] using ih

theorem evCard_mem_reqs (b : List String) (e : Ev)
    (h : e ∈ b.map Ev.req) : evCard e ∈ b := by
  rcases List.mem_map.1 h with ⟨c, hc, rfl⟩
  simpa [evCard] using hc

theorem evCard_mem_apps (oracle : Service) (promptOf : String → String)
    (b : List String) (e : Ev) (h : e ∈ appsOfBatch oracle promptOf b) :
    evCard e ∈ b := by
  rcases List.mem_filterMap.1 h with ⟨c, hc, he⟩
  cases hd : decodedOf oracle promptOf c with
  | none => rw [hd] at he; simp at he
  | some qs =>
    rw [hd] at he
    simp at he
    subst he
    simpa [evCard] using hc

theorem app_mem_apps_card (oracle : Service) (promptOf : String → String)
    (b : List String) (c : String) (qs : List String)
    (h : Ev.app c qs ∈ appsOfBatch oracle promptOf b) : c ∈ b := by
  simpa [evCard] using evCard_mem_apps oracle promptOf b (Ev.app c qs) h

/-- Unfolding `runBatches` on a batch with a transport failure. -/
theorem runBatches_cons_err (oracle : Service) (promptOf : String → String)
    (b : List String) (rest : List (List String)) (qd : QueryStore)
    (h : (b.map (fun c => oracle (promptOf c))).any isErrE = true) :
    runBatches oracle promptOf (b :: rest) qd
      = { ok := false, events := b.map Ev.req, finalWrite := none } := by
  simp [runBatches, h]

/-- Unfolding `runBatches` on a batch with no transport failure. -/
theorem runBatches_cons_ok (oracle : Service) (promptOf : String → String)
    (b : List String) (rest : List (List String)) (qd : QueryStore)
    (h : (b.map (fun c => oracle (promptOf c))).any isErrE = false) :
    runBatches oracle promptOf (b :: rest) qd
      = { ok := (runBatches oracle promptOf rest (updBatch oracle promptOf b qd)).ok
          events := b.map Ev.req ++ appsOfBatch oracle promptOf b
            ++ (runBatches oracle promptOf rest (updBatch oracle promptOf b qd)).events
          finalWrite :=
            (runBatches oracle promptOf rest (updBatch oracle promptOf b qd)).finalWrite } := by
  simp [runBatches, h]

theorem batch_no_err (oracle : Service) (promptOf : String → String)
    (b : List String) (h : ∀ s, isErrE (oracle s) = false) :
    (b.map (fun c => oracle (promptOf c))).any isErrE = false := by
  rw [List.any_eq_false]
  intro x hx
  rcases List.mem_map.1 hx with ⟨c, _, rfl⟩
  simp [h]

/-- On an error-free service, the batch loop visits every batch: the
run succeeds and the requested cards are exactly the concatenation of
the batches, in order. -/
theorem runBatches_ok (oracle : Service) (promptOf : String → String)
    (bs : List (List String)) (qd : QueryStore)
    (h : ∀ s, isErrE (oracle s) = false) :
    (runBatches oracle promptOf bs qd).ok = true ∧
      (runBatches oracle promptOf bs qd).requested = bs.flatten := by
  induction bs generalizing qd with
  | nil => simp [runBatches, RunResult.requested]
  | cons b rest ih =>
    have hne := batch_no_err oracle promptOf b h
    rcases ih (updBatch oracle promptOf b qd) with ⟨ih1, ih2⟩
    rw [runBatches_cons_ok oracle promptOf b rest qd hne]
    refine ⟨ih1, ?_⟩
    simp only [RunResult.requested, List.filterMap_append] at ih2 ⊢
    rw [filterMap_reqCard_reqs, filterMap_reqCard_apps]
    simp [ih2]

/-- Whatever the service does, every requested card comes from one of
the batches. -/
theorem runBatches_requested_subset (oracle : Service)
    (promptOf : String → String) (bs : List (List String)) (qd : QueryStore)
    (c : String) (h : c ∈ (runBatches oracle promptOf bs qd).requested) :
    c ∈ bs.flatten := by
  induction bs generalizing qd with
  | nil => simp [runBatches, RunResult.requested] at h
  | cons b rest ih =>
    by_cases he : (b.map (fun c => oracle (promptOf c))).any isErrE = true
    · rw [runBatches_cons_err oracle promptOf b rest qd he] at h
      simp only [RunResult.requested] at h
      rw [filterMap_reqCard_reqs] at h
      simp [h]
    · rw [runBatches_cons_ok oracle promptOf b rest qd (by simpa using he)] at h
      simp only [RunResult.requested, List.filterMap_append] at h
      rw [filterMap_reqCard_reqs, filterMap_reqCard_apps] at h
      simp only [List.append_nil, List.mem_append] at h
      rcases h with h | h
      · simp [h]
      · simp only [List.flatten_cons, List.mem_append]
        exact Or.inr (ih (updBatch oracle promptOf b qd) h)

theorem dictGet_some_mem (d : QueryStore) (k : String) (v : List String)
    (h : dictGet d k = some v) : k ∈ dictKeys d := by
  have : dictHasKey d k = true := by simp [dictHasKey, h]
  exact (dictHasKey_iff_mem d k).1 this

theorem updCard_none (oracle : Service) (promptOf : String → String)
    (qd : QueryStore) (c : String) (hd : decodedOf oracle promptOf c = none) :
    updCard oracle promptOf qd c = qd := by
  unfold updCard
  rw [hd]

theorem updCard_some (oracle : Service) (promptOf : String → String)
    (qd : QueryStore) (c : String) (qs : List String)
    (hd : decodedOf oracle promptOf c = some qs) :
    updCard oracle promptOf qd c = dictSet qd c qs := by
  unfold updCard
  rw [hd]

theorem updBatch_nil (oracle : Service) (promptOf : String → String)
    (qd : QueryStore) : updBatch oracle promptOf [] qd = qd := rfl

theorem updBatch_cons (oracle : Service) (promptOf : String → String)
    (c : String) (cs : List String) (qd : QueryStore) :
    updBatch oracle promptOf (c :: cs) qd
      = updBatch oracle promptOf cs (updCard oracle promptOf qd c) := by
  simp only [updBatch, List.foldl_cons]

/-- A card absent from a batch keeps its value across that batch's
`queries_data` updates. -/
theorem updBatch_get_notmem (oracle : Service) (promptOf : String → String)
    (b : List String) (qd : QueryStore) (k : String) (hk : k ∉ b) :
    dictGet (updBatch oracle promptOf b qd) k = dictGet qd k := by
  induction b generalizing qd with
  | nil => rw [updBatch_nil]
  | cons c cs ih =>
    have hkc : k ≠ c := fun he => hk (by simp [he])
    have hkcs : k ∉ cs := fun hm => hk (by simp [hm])
    rw [updBatch_cons]
    cases hd : decodedOf oracle promptOf c with
    | none => rw [updCard_none oracle promptOf qd c hd, ih qd hkcs]
    | some qs =>
      rw [updCard_some oracle promptOf qd c qs hd,
        ih (dictSet qd c qs) hkcs, dictGet_set_ne qd c k qs hkc]

/-- A batch's updates add keys only from the batch itself. -/
theorem mem_keys_updBatch (oracle : Service) (promptOf : String → String)
    (b : List String) (qd : QueryStore) (k : String)
    (h : k ∈ dictKeys (updBatch oracle promptOf b qd)) :
    k ∈ dictKeys qd ∨ k ∈ b := by
  induction b generalizing qd with
  | nil => rw [updBatch_nil] at h; exact Or.inl h
  | cons c cs ih =>
    rw [updBatch_cons] at h
    cases hd : decodedOf oracle promptOf c with
    | none =>
      rw [updCard_none oracle promptOf qd c hd] at h
      rcases ih qd h with h1 | h1
      · exact Or.inl h1
      · exact Or.inr (by simp [h1])
    | some qs =>
      rw [updCard_some oracle promptOf qd c qs hd] at h
      rcases ih (dictSet qd c qs) h with h1 | h1
      · rcases mem_dictKeys_set qd c k qs h1 with h2 | h2
        · exact Or.inl h2
        · exact Or.inr (by simp [h2])
      · exact Or.inr (by simp [h1])

/-- If the run reaches the final write, entries for cards outside every
batch are exactly as in the initially loaded mapping. -/
theorem runBatches_preserves (oracle : Service) (promptOf : String → String)
    (bs : List (List String)) (qd : QueryStore) (m : QueryStore)
    (hw : (runBatches oracle promptOf bs qd).finalWrite = some m)
    (k : String) (hk : ∀ b ∈ bs, k ∉ b) : dictGet m k = dictGet qd k := by
  induction bs generalizing qd with
  | nil =>
    have h0 : some qd = some m := hw
    cases h0
    rfl
  | cons b rest ih =>
    by_cases he : (b.map (fun c => oracle (promptOf c))).any isErrE = true
    · rw [runBatches_cons_err oracle promptOf b rest qd he] at hw
      simp at hw
    · rw [runBatches_cons_ok oracle promptOf b rest qd (by simpa using he)] at hw
      have h1 := ih (updBatch oracle promptOf b qd) hw
        (fun b' hb' => hk b' (by simp [hb']))
      rw [h1, updBatch_get_notmem oracle promptOf b qd k (hk b (by simp))]

/-- If the run reaches the final write, every key of the final mapping
is a loaded key or a member of some batch. -/
theorem runBatches_keys (oracle : Service) (promptOf : String → String)
    (bs : List (List String)) (qd : QueryStore) (m : QueryStore)
    (hw : (runBatches oracle promptOf bs qd).finalWrite = some m)
    (k : String) (hk : k ∈ dictKeys m) :
    k ∈ dictKeys qd ∨ ∃ b ∈ bs, k ∈ b := by
  induction bs generalizing qd with
  | nil =>
    have h0 : some qd = some m := hw
    cases h0
    exact Or.inl hk
  | cons b rest ih =>
    by_cases he : (b.map (fun c => oracle (promptOf c))).any isErrE = true
    · rw [runBatches_cons_err oracle promptOf b rest qd he] at hw
      simp at hw
    · rw [runBatches_cons_ok oracle promptOf b rest qd (by simpa using he)] at hw
      rcases ih (updBatch oracle promptOf b qd) hw with h1 | h1
      · rcases mem_keys_updBatch oracle promptOf b qd k h1 with h2 | h2
        · exact Or.inl h2
        · exact Or.inr ⟨b, by simp, h2⟩
      · rcases h1 with ⟨b', hb', hkb'⟩
        exact Or.inr ⟨b', by simp [hb'], hkb'⟩

/-- Every append event of the batch loop concerns a card of one of the
batches. -/
theorem app_mem_runBatches_events (oracle : Service)
    (promptOf : String → String) (bs : List (List String)) (qd : QueryStore)
    (c : String) (qs : List String)
    (h : Ev.app c qs ∈ (runBatches oracle promptOf bs qd).events) :
    c ∈ bs.flatten := by
  induction bs generalizing qd with
  | nil => simp [runBatches] at h
  | cons b rest ih =>
    by_cases he : (b.map (fun c => oracle (promptOf c))).any isErrE = true
    · rw [runBatches_cons_err oracle promptOf b rest qd he] at h
      simp only at h
      rcases List.mem_map.1 h with ⟨c', _, he'⟩
      cases he'
    · rw [runBatches_cons_ok oracle promptOf b rest qd (by simpa using he)] at h
      simp only [List.mem_append] at h
      rcases h with (h | h) | h
      · rcases List.mem_map.1 h with ⟨c', _, he'⟩
        cases he'
      · simp only [List.flatten_cons, List.mem_append]
        exact Or.inl (app_mem_apps_card oracle promptOf b c qs h)
      · simp only [List.flatten_cons, List.mem_append]
        exact Or.inr (ih (updBatch oracle promptOf b qd) h)

/-- Interruption containment for the batch loop: however the event
trace is cut into an executed prefix and an unexecuted suffix, there is
a batch position `k` such that every executed event concerns a card of
batches up to `k` and every append still to come concerns a card of
batches from `k` on.  In particular at most one batch (the one in
flight at the cut) has both executed requests and unexecuted appends. -/
theorem runBatches_interrupt (oracle : Service) (promptOf : String → String)
    (bs : List (List String)) (qd : QueryStore) (epre esuf : List Ev)
    (h : (runBatches oracle promptOf bs qd).events = epre ++ esuf) :
    ∃ k, (∀ e ∈ epre, evCard e ∈ (bs.take (k + 1)).flatten) ∧
      (∀ c qs, Ev.app c qs ∈ esuf → c ∈ (bs.drop k).flatten) := by
  induction bs generalizing qd epre esuf with
  | nil =>
    simp [runBatches] at h
    refine ⟨0, ?_, ?_⟩
    · intro e he
      rw [h.1] at he
      simp at he
    · intro c qs hc
      rw [h.2] at hc
      simp at hc
  | cons b rest ih =>
    by_cases he : (b.map (fun c => oracle (promptOf c))).any isErrE = true
    · rw [runBatches_cons_err oracle promptOf b rest qd he] at h
      simp only at h
      refine ⟨0, ?_, ?_⟩
      · intro e hep
        have : e ∈ b.map Ev.req := by
          rw [h]
          exact List.mem_append_left _ hep
        simpa [List.take_succ_cons] using evCard_mem_reqs b e this
      · intro c qs hc
        have : Ev.app c qs ∈ b.map Ev.req := by
          rw [h]
          exact List.mem_append_right _ hc
        rcases List.mem_map.1 this with ⟨c', _, he'⟩
        cases he'
    · rw [runBatches_cons_ok oracle promptOf b rest qd (by simpa using he)] at h
      simp only at h
      have hmemb : ∀ e, e ∈ b.map Ev.req ++ appsOfBatch oracle promptOf b →
          evCard e ∈ b := by
        intro e hee
        rcases List.mem_append.1 hee with h1 | h1
        · exact evCard_mem_reqs b e h1
        · exact evCard_mem_apps oracle promptOf b e h1
      rcases List.append_eq_append_iff.1 h with ⟨a1, ha1, ha2⟩ | ⟨c1, hc1, hc2⟩
      · rcases ih (updBatch oracle promptOf b qd) a1 esuf ha2 with ⟨k1, hk1, hk2⟩
        refine ⟨k1 + 1, ?_, ?_⟩
        · intro e hee
          rw [ha1] at hee
          simp only [List.take_succ_cons, List.flatten_cons, List.mem_append]
          rcases List.mem_append.1 hee with h1 | h1
          · exact Or.inl (hmemb e h1)
          · exact Or.inr (hk1 e h1)
        · intro c qs hc
          simp only [List.drop_succ_cons]
          exact hk2 c qs hc
      · refine ⟨0, ?_, ?_⟩
        · intro e hee
          have : e ∈ b.map Ev.req ++ appsOfBatch oracle promptOf b := by
            rw [hc1]
            exact List.mem_append_left _ hee
          simpa [List.take_succ_cons] using hmemb e this
        · intro c qs hc
          rw [hc2] at hc
          simp only [List.drop_zero, List.flatten_cons, List.mem_append]
          rcases List.mem_append.1 hc with h1 | h1
          · have : Ev.app c qs ∈ b.map Ev.req ++ appsOfBatch oracle promptOf b := by
              rw [hc1]
              exact List.mem_append_right _ h1
            have := hmemb (Ev.app c qs) this
            simpa [evCard] using Or.inl this
          · exact Or.inr
              (app_mem_runBatches_events oracle promptOf rest
                (updBatch oracle promptOf b qd) c qs h1)

/-! ## The pending set and the top of `main` -/

theorem pendingOf_eq_nil_iff (corpus : Corpus) (store : QueryStore) :
    pendingOf corpus store = []
      ↔ corpus.card_names.all (fun c => dictHasKey store c) = true := by
  rw [pendingOf, List.filter_eq_nil_iff, List.all_eq_true]
  constructor
  · intro h c hc
    have := h c hc
    simpa using this
  · intro h c hc
    simp [h c hc]

theorem mem_pendingOf (corpus : Corpus) (store : QueryStore) (c : String) :
    c ∈ pendingOf corpus store
      ↔ c ∈ corpus.card_names ∧ dictHasKey store c = false := by
  rw [pendingOf, List.mem_filter]
  simp

theorem runMain_satisfied (corpus : Corpus) (store : QueryStore)
    (apiKeySet : Bool) (oracle : Service)
    (h : corpus.card_names.all (fun c => dictHasKey store c) = true) :
    runMain corpus store apiKeySet oracle
      = { ok := true, events := [], finalWrite := none } := by
  simp [runMain, h]

theorem runMain_go (corpus : Corpus) (store : QueryStore) (oracle : Service)
    (h : corpus.card_names.all (fun c => dictHasKey store c) = false) :
    runMain corpus store true oracle
      = runBatches oracle (promptOfCard corpus)
          (chunks32 (pendingOf corpus store)) store := by
  simp [runMain, h]

theorem length_filter_not_add (l : List String) (p : String → Bool) :
    (l.filter (fun c => ! p c)).length + (l.filter p).length = l.length := by
  induction l with
  | nil => simp
  | cons c cs ih =>
    cases hp : p c <;> simp [hp, ← ih] <;> omega

/-! ## Validator round-trip lemmas -/

theorem all_isSome_map_str (qs : List String) :
    (qs.map Json.str).all (fun v => (asStr v).isSome) = true := by
  induction qs with
  | nil => rfl
  | cons q rest ih => simp [asStr, ih]

theorem strList_map_str (qs : List String) :
    strList (qs.map Json.str) = some qs := by
  induction qs with
  | nil => rfl
  | cons q rest ih => simp [strList, asStr, ih]

theorem strList_isSome_of_all (items : List Json)
    (h : items.all (fun v => (asStr v).isSome) = true) :
    ∃ qs, strList items = some qs := by
  induction items with
  | nil => exact ⟨[], rfl⟩
  | cons j rest ih =>
    simp only [List.all_cons, Bool.and_eq_true] at h
    rcases Option.isSome_iff_exists.1 h.1 with ⟨s, hs⟩
    rcases ih h.2 with ⟨qs, hqs⟩
    exact ⟨s :: qs, by simp [strList, hs, hqs]⟩

/-- Unfolding the validator through a parse result. -/
theorem postprocess_eq_of_parse (s : String) (j : Json)
    (hp : jsonLoads (cleanedOutput s) = some j) :
    postprocess_synthetic_querygen_response s
      = (if schemaOk j then extractQueries j else none) := by
  unfold postprocess_synthetic_querygen_response
  rw [hp]

theorem postprocess_eq_none_of_noparse (s : String)
    (hp : jsonLoads (cleanedOutput s) = none) :
    postprocess_synthetic_querygen_response s = none := by
  unfold postprocess_synthetic_querygen_response
  rw [hp]

/-- A nonempty pending list of at most 32 cards forms exactly one
batch. -/
theorem chunks32_eq_single (l : List String) (hne : l ≠ [])
    (hlen : l.length ≤ 32) : chunks32 l = [l] := by
  cases l with
  | nil => exact absurd rfl hne
  | cons c cs =>
    rw [chunks32.eq_def]
    simp only [List.take_of_length_le hlen, List.drop_eq_nil_of_le hlen]
    rw [chunks32.eq_def]

/-! ## Concrete run evaluations -/

theorem okService_no_err (s : String) : isErrE (okService s) = false := rfl

theorem emptyService_no_err (s : String) : isErrE (emptyService s) = false := rfl

theorem oneFailService_c0 :
    oneFailService (promptOfCard corpus32 ("c0")) = Except.error () := by
  unfold oneFailService
  exact if_pos rfl

theorem anyErr32 : ((pendingOf corpus32 []).map
    (fun c => oneFailService (promptOfCard corpus32 c))).any isErrE = true := by
  rw [List.any_eq_true]
  refine ⟨oneFailService (promptOfCard corpus32 ("c0")),
    List.mem_map.2 ⟨("c0"), by decide, rfl⟩, ?_⟩
  rw [oneFailService_c0]
  rfl

theorem eval_runMain_AB : runMain corpusAB [] true okService
    = { ok := true
        events := [Ev.req ("A"), Ev.req ("B"), Ev.app ("A") (["q1", "q2"]),
          Ev.app ("B") (["q1", "q2"])]
        finalWrite := some [("A", ["q1", "q2"]), ("B", ["q1", "q2"])] } := by
  rw [runMain_go corpusAB [] okService (by rfl)]
  rw [chunks32_eq_single (pendingOf corpusAB []) (by decide) (by decide)]
  rfl

theorem eval_runMain_AB_resume : runMain corpusAB [("A", ["x"])] true okService
    = { ok := true
        events := [Ev.req ("B"), Ev.app ("B") (["q1", "q2"])]
        finalWrite := some [("A", ["x"]), ("B", ["q1", "q2"])] } := by
  rw [runMain_go corpusAB [("A", ["x"])] okService (by rfl)]
  rw [chunks32_eq_single (pendingOf corpusAB [("A", ["x"])]) (by decide) (by decide)]
  rfl

theorem eval_runMain_X : runMain corpusX (load_existing none) true okService
    = { ok := true
        events := [Ev.req ("CardX"), Ev.app ("CardX") (["q1", "q2"])]
        finalWrite := some [("CardX", ["q1", "q2"])] } := by
  rw [show load_existing none = [] from rfl]
  rw [runMain_go corpusX [] okService (by rfl)]
  rw [chunks32_eq_single (pendingOf corpusX []) (by decide) (by decide)]
  rfl

theorem eval_runMain_X_emptyqs : runMain corpusX [] true emptyService
    = { ok := true
        events := [Ev.req ("CardX"), Ev.app ("CardX") ([])]
        finalWrite := some [("CardX", ([] : List String))] } := by
  rw [runMain_go corpusX [] emptyService (by rfl)]
  rw [chunks32_eq_single (pendingOf corpusX []) (by decide) (by decide)]
  rfl

theorem eval_runMain_32 : runMain corpus32 [] true oneFailService
    = { ok := false
        events := (pendingOf corpus32 []).map Ev.req
        finalWrite := none } := by
  rw [runMain_go corpus32 [] oneFailService (by rfl)]
  rw [chunks32_eq_single (pendingOf corpus32 []) (by decide) (by decide)]
  rw [runBatches_cons_err oneFailService (promptOfCard corpus32)
    (pendingOf corpus32 []) [] [] anyErr32]

/-! ## Claim theorems -/

/-- C4: if at pipeline start every corpus card already has an entry in
the consolidated store (the pending set is empty), the run performs
zero network calls (no request event), appends nothing, leaves
`synthetic_queries.json` untouched (no final write), and returns
successfully — whatever the service would do and even with no API key,
since the early return precedes the credential check.  Running the
pipeline again against the unchanged, fully satisfied corpus therefore
does exactly the same nothing. -/
theorem noop_on_fully_satisfied_corpus (corpus : Corpus) (store : QueryStore)
    (apiKeySet : Bool) (oracle : Service)
    (h : ∀ c ∈ corpus.card_names, dictHasKey store c = true) :
    (runMain corpus store apiKeySet oracle).ok = true
    ∧ (runMain corpus store apiKeySet oracle).events = []
    ∧ (runMain corpus store apiKeySet oracle).finalWrite = none := by
  rw [runMain_satisfied corpus store apiKeySet oracle (List.all_eq_true.2 h)]
  exact ⟨rfl, rfl, rfl⟩

/-- Witness for C4: a fully satisfied two-card corpus is a no-op, with
the hypotheses discharged at a concrete store. -/
theorem noop_on_fully_satisfied_corpus_witness :
    (runMain corpusAB [("A", ["x"]), ("B", ["y"])] true okService).events = []
    ∧ (runMain corpusAB [("A", ["x"]), ("B", ["y"])] true okService).finalWrite = none := by
  have h := noop_on_fully_satisfied_corpus corpusAB [("A", ["x"]), ("B", ["y"])]
    true okService (by decide)
  exact ⟨h.2.1, h.2.2⟩

/-- C5: the validator, given any raw response whose stripped content
parses to an object whose `hypothetical_queries` field holds an array
of strings, returns exactly that array verbatim — for every length,
so fewer than 5 or more than 10 entries are accepted (no length
enforcement); given a parsed response where the field is missing or
wrong-typed, or given non-parseable text, it rejects. -/
theorem validator_returns_array_verbatim :
    (∀ (s : String) (fields : List (String × Json)) (qs : List String),
        jsonLoads (cleanedOutput s) = some (Json.obj fields) →
        objGet fields ("hypothetical_queries") = some (Json.arr (qs.map Json.str)) →
        postprocess_synthetic_querygen_response s = some qs)
    ∧ (∀ s : String, jsonLoads (cleanedOutput s) = none →
        postprocess_synthetic_querygen_response s = none)
    ∧ (∀ (s : String) (fields : List (String × Json)),
        jsonLoads (cleanedOutput s) = some (Json.obj fields) →
        (objGet fields ("hypothetical_queries") = none
          ∨ ∃ v, objGet fields ("hypothetical_queries") = some v
              ∧ isStrArray v = false) →
        postprocess_synthetic_querygen_response s = none) := by
  refine ⟨?_, ?_, ?_⟩
  · intro s fields qs hp hq
    rw [postprocess_eq_of_parse s _ hp]
    have hs : schemaOk (Json.obj fields) = true := by
      simp [schemaOk, hq, all_isSome_map_str]
    simp [hs, extractQueries, hq, strList_map_str]
  · exact postprocess_eq_none_of_noparse
  · intro s fields hp hbad
    rw [postprocess_eq_of_parse s _ hp]
    have hs : schemaOk (Json.obj fields) = false := by
      rcases hbad with hq | ⟨v, hq, hv⟩
      · simp [schemaOk, hq]
      · cases v <;> simp_all [schemaOk, isStrArray]
    simp [hs]

/-- Witness for C5: the spec's own examples — a two-entry array (fewer
than 5, still accepted verbatim), non-parseable text, and a wrong-typed
field — all through the theorem at concrete inputs. -/
theorem validator_returns_array_verbatim_witness :
    postprocess_synthetic_querygen_response
        ("\x7b\"hypothetical_queries\": [\"a\", \"b\"]\x7d") = some (["a", "b"])
    ∧ postprocess_synthetic_querygen_response ("not json") = none
    ∧ postprocess_synthetic_querygen_response
        ("\x7b\"hypothetical_queries\": \"a\"\x7d") = none := by
  refine ⟨?_, ?_, ?_⟩
  · exact validator_returns_array_verbatim.1
      ("\x7b\"hypothetical_queries\": [\"a\", \"b\"]\x7d")
      [("hypothetical_queries", Json.arr [Json.str ("a"), Json.str ("b")])]
      (["a", "b"]) rfl rfl
  · exact validator_returns_array_verbatim.2.1 ("not json") rfl
  · exact validator_returns_array_verbatim.2.2
      ("\x7b\"hypothetical_queries\": \"a\"\x7d")
      [("hypothetical_queries", Json.str ("a"))]
      rfl (Or.inr ⟨Json.str ("a"), rfl, rfl⟩)

/-- C6 counterexample: the code returns the same undifferentiated value
`None` for a parse failure and for a schema failure — there are no two
distinct rejection values `MalformedOutput` and `SchemaMismatch`; the
two rejections are literally equal. -/
theorem c6_counterexample :
    postprocess_synthetic_querygen_response ("not json") = none
    ∧ postprocess_synthetic_querygen_response
        ("\x7b\"hypothetical_queries\": \"a\"\x7d") = none
    ∧ postprocess_synthetic_querygen_response ("not json")
        = postprocess_synthetic_querygen_response
            ("\x7b\"hypothetical_queries\": \"a\"\x7d") :=
  ⟨rfl, rfl, rfl⟩

/-- C6 amended: for every raw string the validator returns a defined
`Option` value (no exception escapes the `try` block — only
`json.JSONDecodeError` and `jsonschema.ValidationError` can arise and
both are caught), but both the parse-failure and the schema-failure
branches return the same single rejection value `None`; the two failure
modes are not distinguished by the return value. -/
theorem validator_single_rejection_value (s : String) :
    (jsonLoads (cleanedOutput s) = none →
      postprocess_synthetic_querygen_response s = none)
    ∧ (∀ j, jsonLoads (cleanedOutput s) = some j → schemaOk j = false →
        postprocess_synthetic_querygen_response s = none) := by
  constructor
  · exact postprocess_eq_none_of_noparse s
  · intro j hp hs
    rw [postprocess_eq_of_parse s j hp]
    simp [hs]

/-- Witness for the amended C6, at the two concrete failure inputs. -/
theorem validator_single_rejection_value_witness :
    postprocess_synthetic_querygen_response ("totally not json") = none
    ∧ postprocess_synthetic_querygen_response
        ("\x7b\"hypothetical_queries\": 7\x7d") = none :=
  ⟨(validator_single_rejection_value ("totally not json")).1 rfl,
   (validator_single_rejection_value ("\x7b\"hypothetical_queries\": 7\x7d")).2
     (Json.obj [("hypothetical_queries", Json.num ("7"))]) rfl rfl⟩

/-- C7 counterexample: the final write opens `synthetic_queries.json`
with mode `"w"`, which truncates in place; after the first operation of
the commit (the truncating open), the store is observable as empty —
neither the previous content nor the new one.  The previous
consolidated store is destroyed before the new content is written, so
the commit is not atomic and an interruption does not leave the
previous store intact. -/
theorem c7_counterexample :
    fileAfter (some ("old store")) ((commitFinalOps ("new store")).take 1)
      = some ("")
    ∧ ("" : String) ≠ ("old store")
    ∧ ("" : String) ≠ ("new store") :=
  ⟨rfl, by decide, by decide⟩

/-- C7 amended: `commit_final` overwrites `synthetic_queries.json` in
place with a truncating open followed by a write — not
write-to-temp-then-rename.  An uninterrupted commit leaves the full
serialized mapping, but an interruption between the truncating open
and the write leaves the store empty, regardless of its previous
content. -/
theorem commit_truncates_in_place (content : String) (init : Option String)
    (prev : String) :
    fileAfter init (commitFinalOps content) = some content
    ∧ fileAfter (some prev) ((commitFinalOps content).take 1) = some ("") := by
  constructor
  · simp [commitFinalOps, fileAfter, applyFsOp]
  · simp [commitFinalOps, fileAfter, applyFsOp]

/-- C10: the validator accepts a response whose `hypothetical_queries`
field is an empty array and returns the empty list, and the pipeline
applies no non-emptiness check anywhere: a run against a service that
returns such a response records the card in the incremental log and in
the consolidated store with zero queries, and the run succeeds. -/
theorem empty_query_list_accepted :
    postprocess_synthetic_querygen_response emptyResponse = some []
    ∧ runMain corpusX [] true emptyService
        = { ok := true
            events := [Ev.req ("CardX"), Ev.app ("CardX") ([])]
            finalWrite := some [("CardX", ([] : List String))] }
    ∧ tempLogAfter [] (runMain corpusX [] true emptyService).events
        = [("CardX", ([] : List String))]
    ∧ dictGet [("CardX", ([] : List String))] ("CardX") = some [] := by
  refine ⟨rfl, eval_runMain_X_emptyqs, ?_, rfl⟩
  rw [eval_runMain_X_emptyqs]
  rfl

/-- C1 counterexample: with a corpus of exactly 32 pending cards (one
full batch) and a service whose call fails at the transport level for
exactly one of them, the run does not contain the failure: the whole
run aborts with the propagated exception, nothing is appended to the
incremental log, and `synthetic_queries.json` is never written — the
other 31 cards do not receive validated entries in the output store
after the run, although all 32 requests were issued. -/
theorem c1_counterexample :
    (runMain corpus32 [] true oneFailService).ok = false
    ∧ (runMain corpus32 [] true oneFailService).finalWrite = none
    ∧ appsOf (runMain corpus32 [] true oneFailService).events = []
    ∧ (runMain corpus32 [] true oneFailService).requested.length = 32 := by
  rw [eval_runMain_32]
  refine ⟨rfl, rfl, ?_, ?_⟩
  · decide
  · decide

/-- C1 amended: a transport-level failure for any card of the first
batch aborts the entire run — `asyncio.gather` propagates the
exception out of the batch loop — so the run ends unsuccessfully,
the batch produces no log append, and the consolidated store is never
rewritten.  (Only a validator-level rejection is contained per card.) -/
theorem transport_failure_aborts_run (corpus : Corpus) (store : QueryStore)
    (oracle : Service) (b : List String) (rest : List (List String))
    (hch : chunks32 (pendingOf corpus store) = b :: rest)
    (herr : ∃ c ∈ b, isErrE (oracle (promptOfCard corpus c)) = true) :
    (runMain corpus store true oracle).ok = false
    ∧ (runMain corpus store true oracle).events = b.map Ev.req
    ∧ (runMain corpus store true oracle).finalWrite = none := by
  have hpne : pendingOf corpus store ≠ [] := by
    intro h0
    rw [h0] at hch
    simp [chunks32] at hch
  have hall : corpus.card_names.all (fun c => dictHasKey store c) = false := by
    cases hb : corpus.card_names.all (fun c => dictHasKey store c) with
    | false => rfl
    | true => exact absurd ((pendingOf_eq_nil_iff corpus store).2 hb) hpne
  rw [runMain_go corpus store oracle hall, hch]
  have hany : (b.map (fun c => oracle (promptOfCard corpus c))).any isErrE
      = true := by
    rw [List.any_eq_true]
    rcases herr with ⟨c, hc, he⟩
    exact ⟨oracle (promptOfCard corpus c), List.mem_map.2 ⟨c, hc, rfl⟩, he⟩
  rw [runBatches_cons_err oracle (promptOfCard corpus) b rest store hany]
  exact ⟨rfl, rfl, rfl⟩

/-- Witness for the amended C1: the 32-card corpus with one failing
card, through the theorem with every hypothesis discharged
concretely. -/
theorem transport_failure_aborts_run_witness :
    (runMain corpus32 [] true oneFailService).ok = false
    ∧ (runMain corpus32 [] true oneFailService).finalWrite = none := by
  have h := transport_failure_aborts_run corpus32 [] oneFailService
    (pendingOf corpus32 []) []
    (chunks32_eq_single (pendingOf corpus32 []) (by decide) (by decide))
    ⟨("c0"), by decide, by rw [oneFailService_c0]; rfl⟩
  exact ⟨h.1, h.2.2⟩

/-- C2 counterexample: a run against an absent consolidated store
appends card X's validated queries to the incremental log
`synthetic_queries_temp.jsonl` and is terminated before `commit_final`,
leaving the consolidated store still absent; the next run — loading
exactly what `load_existing` reads, namely `synthetic_queries.json`
alone — still considers X pending and issues a request for X again.
The incremental log holding X is never read or merged by
`load_existing` (the code reads only `synthetic_queries.json` at lines
52–57). -/
theorem c2_counterexample :
    tempLogAfter []
        (runMain corpusX (load_existing none) true okService).events
      = [("CardX", ["q1", "q2"])]
    ∧ (runMain corpusX (load_existing none) true okService).requested
      = [("CardX")] := by
  rw [eval_runMain_X]
  exact ⟨rfl, rfl⟩

/-- C2 amended: the pending set of a run is computed from the
consolidated store alone — `runMain` does not even take the incremental
log as an input, mirroring `load_existing`, which reads only
`synthetic_queries.json` — so a card absent from the consolidated
store is re-requested on the next invocation no matter what the
incremental log durably holds; recovery from the log is manual. -/
theorem unmerged_log_card_rerequested (corpus : Corpus) (store : QueryStore)
    (oracle : Service) (X : String)
    (hX : X ∈ corpus.card_names) (hk : dictHasKey store X = false)
    (hok : ∀ s, isErrE (oracle s) = false) :
    X ∈ (runMain corpus store true oracle).requested := by
  have hall : corpus.card_names.all (fun c => dictHasKey store c) = false := by
    cases hb : corpus.card_names.all (fun c => dictHasKey store c) with
    | false => rfl
    | true =>
      have := List.all_eq_true.1 hb X hX
      rw [hk] at this
      exact absurd this (by simp)
  rw [runMain_go corpus store oracle hall]
  rw [(runBatches_ok oracle (promptOfCard corpus)
    (chunks32 (pendingOf corpus store)) store hok).2, chunks32_join]
  exact (mem_pendingOf corpus store X).2 ⟨hX, hk⟩

/-- Witness for the amended C2 at the one-card corpus. -/
theorem unmerged_log_card_rerequested_witness :
    ("CardX") ∈ (runMain corpusX [] true okService).requested :=
  unmerged_log_card_rerequested corpusX [] okService ("CardX")
    (by decide) rfl (fun _ => rfl)

/-- C3: for a corpus of `N` distinct cards and a loaded consolidated
store whose keys form a subset `S` of them, a run never issues a
request for a member of `S` (unconditionally, even if the service
fails mid-run), and — whenever every issued request receives a
response — it issues requests for exactly the pending cards, `N − |S|`
of them, stated additively as `requested + |S| = N`. -/
theorem run_requests_exactly_pending (corpus : Corpus) (store : QueryStore)
    (oracle : Service)
    (hnd : corpus.card_names.Nodup) (hknd : (dictKeys store).Nodup)
    (hsub : ∀ k ∈ dictKeys store, k ∈ corpus.card_names) :
    (∀ c ∈ (runMain corpus store true oracle).requested, c ∉ dictKeys store)
    ∧ ((∀ s, isErrE (oracle s) = false) →
        (runMain corpus store true oracle).requested = pendingOf corpus store
        ∧ (runMain corpus store true oracle).requested.length
            + (dictKeys store).length = corpus.card_names.length) := by
  by_cases hall : corpus.card_names.all (fun c => dictHasKey store c) = true
  · rw [runMain_satisfied corpus store true oracle hall]
    constructor
    · intro c hc
      simp [RunResult.requested] at hc
    · intro _
      have hpnil : pendingOf corpus store = [] :=
        (pendingOf_eq_nil_iff corpus store).2 hall
      constructor
      · simp [RunResult.requested, hpnil]
      · have hns : ∀ c ∈ corpus.card_names, c ∈ dictKeys store := by
          intro c hc
          exact (dictHasKey_iff_mem store c).1 (List.all_eq_true.1 hall c hc)
        have h1 := (List.Nodup.subperm hknd hsub).length_le
        have h2 := (List.Nodup.subperm hnd hns).length_le
        simp only [RunResult.requested, List.filterMap_nil, List.length_nil]
        omega
  · have hall' : corpus.card_names.all (fun c => dictHasKey store c) = false := by
      cases hb : corpus.card_names.all (fun c => dictHasKey store c) with
      | false => rfl
      | true => exact absurd hb hall
    rw [runMain_go corpus store oracle hall']
    constructor
    · intro c hc hmem
      have h1 := runBatches_requested_subset oracle (promptOfCard corpus)
        (chunks32 (pendingOf corpus store)) store c hc
      rw [chunks32_join] at h1
      have h2 := ((mem_pendingOf corpus store c).1 h1).2
      have h3 := (dictHasKey_iff_mem store c).2 hmem
      rw [h2] at h3
      exact absurd h3 (by simp)
    · intro hok
      have hmain := runBatches_ok oracle (promptOfCard corpus)
        (chunks32 (pendingOf corpus store)) store hok
      refine ⟨by rw [hmain.2, chunks32_join], ?_⟩
      rw [hmain.2, chunks32_join]
      have e1 := length_filter_not_add corpus.card_names
        (fun c => dictHasKey store c)
      have e2 : (corpus.card_names.filter
          (fun c => dictHasKey store c)).length = (dictKeys store).length := by
        have hfsub : (corpus.card_names.filter (fun c => dictHasKey store c))
            ⊆ dictKeys store := by
          intro c hc
          exact (dictHasKey_iff_mem store c).1 (List.mem_filter.1 hc).2
        have hksub : dictKeys store
            ⊆ corpus.card_names.filter (fun c => dictHasKey store c) := by
          intro k hk
          exact List.mem_filter.2 ⟨hsub k hk, (dictHasKey_iff_mem store k).2 hk⟩
        have l1 := (List.Nodup.subperm (hnd.filter _) hfsub).length_le
        have l2 := (List.Nodup.subperm hknd hksub).length_le
        omega
      rw [pendingOf]
      omega

/-- Witness for C3: resuming a two-card corpus whose store already
holds card A requests exactly card B. -/
theorem run_requests_exactly_pending_witness :
    (runMain corpusAB [("A", ["x"])] true okService).requested
      = pendingOf corpusAB [("A", ["x"])]
    ∧ (runMain corpusAB [("A", ["x"])] true okService).requested.length
        + (dictKeys [("A", ["x"])]).length = corpusAB.card_names.length :=
  (run_requests_exactly_pending corpusAB [("A", ["x"])] okService
    (by decide) (by decide) (by decide)).2 (fun _ => rfl)

/-- C9: a run that reaches the final commit never mutates or deletes
an entry that was in the consolidated store at load time — the mapping
passed to the final write maps every loaded card to exactly the query
list it had at load — and every key it adds beyond the loaded ones is
a card of the pending set, i.e. was absent at load. -/
theorem run_never_mutates_existing (corpus : Corpus) (store : QueryStore)
    (oracle : Service) (m : QueryStore)
    (hm : (runMain corpus store true oracle).finalWrite = some m) :
    (∀ c qs, dictGet store c = some qs → dictGet m c = some qs)
    ∧ (∀ c, c ∈ dictKeys m →
        c ∈ dictKeys store ∨ c ∈ pendingOf corpus store) := by
  by_cases hall : corpus.card_names.all (fun c => dictHasKey store c) = true
  · rw [runMain_satisfied corpus store true oracle hall] at hm
    simp at hm
  · have hall' : corpus.card_names.all (fun c => dictHasKey store c) = false := by
      cases hb : corpus.card_names.all (fun c => dictHasKey store c) with
      | false => rfl
      | true => exact absurd hb hall
    rw [runMain_go corpus store oracle hall'] at hm
    constructor
    · intro c qs hc
      have hkmem := dictGet_some_mem store c qs hc
      have hnb : ∀ b ∈ chunks32 (pendingOf corpus store), c ∉ b := by
        intro b hb hcb
        have hpend := mem_of_mem_chunks32 (pendingOf corpus store) b c hb hcb
        have h2 := ((mem_pendingOf corpus store c).1 hpend).2
        have h3 := (dictHasKey_iff_mem store c).2 hkmem
        rw [h2] at h3
        exact absurd h3 (by simp)
      rw [runBatches_preserves oracle (promptOfCard corpus)
        (chunks32 (pendingOf corpus store)) store m hm c hnb, hc]
    · intro c hckeys
      rcases runBatches_keys oracle (promptOfCard corpus)
          (chunks32 (pendingOf corpus store)) store m hm c hckeys with
        h1 | ⟨b, hb, hcb⟩
      · exact Or.inl h1
      · exact Or.inr (mem_of_mem_chunks32 (pendingOf corpus store) b c hb hcb)

/-- Witness for C9: in the resumed run, card A's loaded entry `["x"]`
appears unchanged in the final mapping. -/
theorem run_never_mutates_existing_witness :
    dictGet [("A", ["x"]), ("B", ["q1", "q2"])] ("A") = some (["x"]) :=
  (run_never_mutates_existing corpusAB [("A", ["x"])] okService
    [("A", ["x"]), ("B", ["q1", "q2"])]
    (by rw [eval_runMain_AB_resume])).1 ("A") (["x"]) rfl

/-- C8 counterexample: within one batch every request is dispatched
before any append — the request for card B is the second event of the
trace while no record has yet been appended to the incremental log at
that point, even though card A's result is validated and appended
later in the same run.  So `append_partial` does not durably record
each card's validated result before the next request is started. -/
theorem c8_counterexample :
    ((runMain corpusAB [] true okService).events.take 2)
      = [Ev.req ("A"), Ev.req ("B")]
    ∧ appsOf ((runMain corpusAB [] true okService).events.take 2) = []
    ∧ appsOf ((runMain corpusAB [] true okService).events)
        = [("A", ["q1", "q2"]), ("B", ["q1", "q2"])] := by
  rw [eval_runMain_AB]
  exact ⟨rfl, rfl, rfl⟩

/-- C8 amended: durability holds at batch granularity, not per
request.  For every cut of the run's event trace into an executed
prefix (whose appends are on the incremental log) and an unexecuted
suffix, there is a batch position `k` such that everything executed
concerns cards of batches up to `k` and every append still to come
concerns cards of batches from `k` on: an interruption loses at most
the results of the one batch in flight, and every result of a batch
strictly before any dispatched request is already on the log. -/
theorem interruption_confined_to_batch (corpus : Corpus) (store : QueryStore)
    (oracle : Service) (epre esuf : List Ev)
    (h : (runMain corpus store true oracle).events = epre ++ esuf) :
    ∃ k, (∀ e ∈ epre,
        evCard e ∈ ((chunks32 (pendingOf corpus store)).take (k + 1)).flatten)
      ∧ (∀ c qs, Ev.app c qs ∈ esuf →
          c ∈ ((chunks32 (pendingOf corpus store)).drop k).flatten) := by
  by_cases hall : corpus.card_names.all (fun c => dictHasKey store c) = true
  · rw [runMain_satisfied corpus store true oracle hall] at h
    simp only at h
    have h2 := List.append_eq_nil.1 h.symm
    refine ⟨0, ?_, ?_⟩
    · intro e he
      rw [h2.1] at he
      simp at he
    · intro c qs hc
      rw [h2.2] at hc
      simp at hc
  · have hall' : corpus.card_names.all (fun c => dictHasKey store c) = false := by
      cases hb : corpus.card_names.all (fun c => dictHasKey store c) with
      | false => rfl
      | true => exact absurd hb hall
    rw [runMain_go corpus store oracle hall'] at h
    exact runBatches_interrupt oracle (promptOfCard corpus)
      (chunks32 (pendingOf corpus store)) store epre esuf h

/-- Witness for the amended C8: cutting the two-card run's trace after
its two requests, every executed event is of batch 0 and the two lost
appends are of batch 0 as well. -/
theorem interruption_confined_to_batch_witness :
    ∃ k, (∀ e ∈ [Ev.req ("A"), Ev.req ("B")],
        evCard e ∈ ((chunks32 (pendingOf corpusAB [])).take (k + 1)).flatten)
      ∧ (∀ c qs,
          Ev.app c qs ∈ [Ev.app ("A") (["q1", "q2"]), Ev.app ("B") (["q1", "q2"])] →
          c ∈ ((chunks32 (pendingOf corpusAB [])).drop k).flatten) :=
  interruption_confined_to_batch corpusAB [] okService
    [Ev.req ("A"), Ev.req ("B")]
    [Ev.app ("A") (["q1", "q2"]), Ev.app ("B") (["q1", "q2"])]
    (by rw [eval_runMain_AB]; rfl)
